import Mathlib

/-!
# Chunked User Stream — verification development

Shallow embedding of the generator/decorator/context-manager scripts of the
`alx-backend-python` repository (directories `python-generators-0x00`,
`python-decorators-0x01`, `python-context-async-perations-0x02`) and proofs
of the testable properties the spec states about them.

Rows loaded by `csv.DictReader` are dictionaries of strings; we embed them as
a fixed record of string fields.  The in-memory table `users_db` becomes an
explicit `List` parameter.  Python slicing `db[offset : offset + k]` becomes
`(db.drop offset).take k`.
-/

/-- A row of `user_data.csv` as produced by `csv.DictReader`: every field is a
string; `age` is parsed with `int(...)` only at the point of use. -/
structure Row where
  user_id : String
  name : String
  email : String
  age : String
deriving DecidableEq, Repr

/-- A Python exception relevant to these scripts: `int(s)` raising
`ValueError` on a malformed literal. -/
inductive PyErr where
  | invalidIntLiteral (s : String)
deriving DecidableEq, Repr

/-- Value of a decimal digit list, most significant first. -/
def digitsVal (ds : List Char) : Nat :=
  ds.foldl (fun n c => n * 10 + (c.toNat - 48)) 0

/-- Model of Python `int(s)` on the strings appearing in this repository:
optional surrounding spaces, an optional sign, then a non-empty run of
decimal digits; anything else raises `ValueError`. -/
def parsePyInt (s : String) : Option Int :=
  let cs := ((s.toList.dropWhile (· = ' ')).reverse.dropWhile (· = ' ')).reverse
  match cs with
  | '-' :: ds => if ds ≠ [] ∧ ds.all Char.isDigit then some (-(digitsVal ds : Int)) else none
  | '+' :: ds => if ds ≠ [] ∧ ds.all Char.isDigit then some (digitsVal ds : Int) else none
  | ds => if ds ≠ [] ∧ ds.all Char.isDigit then some (digitsVal ds : Int) else none

/-! ## `1-batch_processing.py` / `2-lazy_paginate.py` — the chunked reader -/

/-- Loop 1 of `stream_users_in_batches`, started at a given `offset`:
`batch = users_db[offset : offset + batch_size]`; break when the slice is
empty, otherwise yield it and advance `offset` by `batch_size`. -/
def streamBatchesFrom (db : List α) (batch_size : Nat) (offset : Nat) : List (List α) :=
  match h : (db.drop offset).take batch_size with
  | [] => []
  | x :: xs => (x :: xs) :: streamBatchesFrom db batch_size (offset + batch_size)
termination_by db.length - offset
decreasing_by
  have hne : (db.drop offset).take batch_size ≠ [] := by rw [h]; simp
  have hb : batch_size ≠ 0 := by
    intro h0; exact hne (by simp [h0])
  have hd : db.drop offset ≠ [] := by
    intro h0; exact hne (by simp [h0])
  have : offset < db.length := by
    by_contra hle
    exact hd (List.drop_eq_nil_of_le (by omega))
  omega

/-- Function `stream_users_in_batches(batch_size)`: the full generator, offset
starting at 0 (the list of yielded batches, in order). -/
def stream_users_in_batches (db : List α) (batch_size : Nat) : List (List α) :=
  streamBatchesFrom db batch_size 0

/-- Function `paginate_users(page_size, offset)`: `users_db[offset : offset + page_size]`. -/
def paginate_users (db : List α) (page_size : Nat) (offset : Nat) : List α :=
  (db.drop offset).take page_size

/-- The loop of `lazy_paginate`, started at a given `offset`: fetch
`paginate_users(page_size, offset)`, break when empty, else yield and
advance `offset` by `page_size`. -/
def lazyPaginateFrom (db : List α) (page_size : Nat) (offset : Nat) : List (List α) :=
  match h : paginate_users db page_size offset with
  | [] => []
  | x :: xs => (x :: xs) :: lazyPaginateFrom db page_size (offset + page_size)
termination_by db.length - offset
decreasing_by
  have hne : (db.drop offset).take page_size ≠ [] := by
    show paginate_users db page_size offset ≠ []
    rw [h]; simp
  have hb : page_size ≠ 0 := by
    intro h0; exact hne (by simp [h0])
  have hd : db.drop offset ≠ [] := by
    intro h0; exact hne (by simp [h0])
  have : offset < db.length := by
    by_contra hle
    exact hd (List.drop_eq_nil_of_le (by omega))
  omega

/-- Function `lazy_paginate(page_size)`: the generator of pages, offset starting at 0. -/
def lazy_paginate (db : List α) (page_size : Nat) : List (List α) :=
  lazyPaginateFrom db page_size 0

/-- Result of a Python call: a returned value or a raised exception. -/
inductive PyResult (α : Type) where
  | ok (val : α)
  | raised (e : PyErr)
deriving DecidableEq, Repr

/-- Loop 3 of `batch_processing`: `filtered_users = []`, then for each `user`
in the batch, append it when `int(user["age"]) > 25`; `int` raises on a
malformed age, aborting the loop (the partial list is discarded because the
exception propagates out of the generator). -/
def filterUsersOver25Go (filtered_users : List Row) : List Row → PyResult (List Row)
  | [] => .ok filtered_users
  | user :: rest =>
    match parsePyInt user.age with
    | none => .raised (.invalidIntLiteral user.age)
    | some a =>
      filterUsersOver25Go (if a > 25 then filtered_users ++ [user] else filtered_users) rest

/-- The body of loop 2 of `batch_processing` applied to one batch. -/
def filterUsersOver25 (batch : List Row) : PyResult (List Row) :=
  filterUsersOver25Go [] batch

/-- Loop 2 of `batch_processing` over an already-produced list of batches:
yield each filtered batch; a raised `ValueError` ends the generator with the
exception (batches yielded before it stand). -/
def batchProcessingGo : List (List Row) → List (List Row) × Option PyErr
  | [] => ([], none)
  | batch :: rest =>
    match filterUsersOver25 batch with
    | .raised e => ([], some e)
    | .ok filtered_users =>
      let r := batchProcessingGo rest
      (filtered_users :: r.1, r.2)

/-- Function `batch_processing(batch_size)`: filter each batch of
`stream_users_in_batches(batch_size)` to users over the age of 25.  Returns
the list of yielded (filtered) batches and the exception, if any, that
terminated the stream. -/
def batch_processing (db : List Row) (batch_size : Nat) : List (List Row) × Option PyErr :=
  batchProcessingGo (stream_users_in_batches db batch_size)

/-- Loop 3 of `batch_processing` generalized over the in-batch predicate `p`
(the source hardcodes `p user = (int(user["age"]) > 25)`; the spec states the
offset property for an arbitrary filter predicate, so `p` is total here —
parsing is covered by the exception-aware `filterUsersOver25`). -/
def filterLoop (p : α → Bool) (batch : List α) : List α :=
  batch.foldl
    (fun filtered_users user =>
      if p user then filtered_users ++ [user] else filtered_users) []

/-- Loops 2–3 of `batch_processing` with an arbitrary in-batch predicate. -/
def batch_processing_with (p : α → Bool) (db : List α) (batch_size : Nat) : List (List α) :=
  (stream_users_in_batches db batch_size).map (filterLoop p)

/-- The predicate hardcoded in the source: `int(user["age"]) > 25` (on rows
whose age parses; a malformed age raises instead, see `filterUsersOver25`). -/
def over25 (user : Row) : Bool :=
  match parsePyInt user.age with
  | some a => a > 25
  | none => false

/-! ## `4-stream_ages.py` — the age stream and the running average -/

/-- Generator `stream_user_ages()`: yield `int(user["age"])` for each user in
`users_db`, in order.  Returns the ages yielded before the generator either
finished (`none`) or raised `ValueError` on a malformed age (`some e`). -/
def stream_user_ages : List Row → List Int × Option PyErr
  | [] => ([], none)
  | user :: rest =>
    match parsePyInt user.age with
    | none => ([], some (.invalidIntLiteral user.age))
    | some age =>
      let r := stream_user_ages rest
      (age :: r.1, r.2)

/-- Function `calculate_average_age()`: consume `stream_user_ages()`, accumulating
`total_age` and `count`; return `0` when `count == 0`, else `total_age /
count` (Python float division, modelled exactly in `ℚ`).  An exception from
the generator propagates, discarding the partial sums. -/
def calculate_average_age (db : List Row) : PyResult ℚ :=
  match stream_user_ages db with
  | (_, some e) => .raised e
  | (ages, none) =>
    let tc := ages.foldl (fun (tc : Int × Nat) age => (tc.1 + age, tc.2 + 1)) (0, 0)
    if tc.2 = 0 then .ok 0 else .ok ((tc.1 : ℚ) / (tc.2 : ℚ))

/-! ## `0-stream_users.py` — single-row streaming over MySQL -/

/-- Observable behavior of the backing store during one run of
`stream_users`: whether `mysql.connector.connect`/`cursor.execute` raises,
what `connection.is_connected()` answers, which rows `fetchone` returns, and
whether an `Error` is raised mid-fetch after those rows. -/
structure StoreRun where
  connectError : Option String
  isConnected : Bool
  rows : List Row
  midError : Option String
deriving DecidableEq, Repr

/-- What a caller of the generator observes: the rows yielded to it, the
exception propagated to it (if any), and the lines printed to stdout. -/
structure StreamResult where
  yielded : List Row
  raised : Option String
  printed : List String
deriving DecidableEq, Repr

/-- Generator `stream_users()`: connect, check `is_connected()`, fetch rows one at a
time until `fetchone()` returns `None`.  Any `mysql.connector.Error` is
caught by `except Error as e: print(f"Database error: {e}")`, after which
the generator simply returns — nothing is re-raised to the caller. -/
def stream_users (run : StoreRun) : StreamResult :=
  match run.connectError with
  | some m => { yielded := [], raised := none, printed := ["Database error: " ++ m] }
  | none =>
    if run.isConnected then
      match run.midError with
      | some m => { yielded := run.rows, raised := none, printed := ["Database error: " ++ m] }
      | none => { yielded := run.rows, raised := none, printed := [] }
    else { yielded := [], raised := none, printed := [] }

/-! ## `python-context-async-perations-0x02` / `python-decorators-0x01` —
scoped connections and the query cache -/

/-- Outcome of running a block of Python code: a returned value or a raised
exception (any exception, abstracted to its message). -/
inductive Outcome (α : Type) where
  | ok (val : α)
  | exc (msg : String)
deriving DecidableEq, Repr

/-- A ledger of database connection handles: `nextId` is the next fresh
handle, `openIds` the handles currently open (most recent first). -/
structure Ledger where
  nextId : Nat
  openIds : List Nat
deriving DecidableEq, Repr

/-- Model of `sqlite3.connect(...)`: allocate a fresh handle and record it open. -/
def connectDB (l : Ledger) : Nat × Ledger :=
  (l.nextId, ⟨l.nextId + 1, l.nextId :: l.openIds⟩)

/-- Model of `conn.close()`: remove the handle from the open set. -/
def closeDB (conn : Nat) (l : Ledger) : Ledger :=
  ⟨l.nextId, l.openIds.erase conn⟩

/-- The `with_db_connection` decorator of `4-cache_query.py`:
`conn = sqlite3.connect("users.db"); try: return func(conn, ...); finally:
conn.close()`.  The wrapped body receives the connection handle and either
returns or raises; `finally` closes the connection on both exits, and the
body's outcome (including an exception) is passed through unchanged. -/
def with_db_connection (body : Nat → Outcome α) (l : Ledger) : Outcome α × Ledger :=
  let cl := connectDB l
  let r := body cl.1
  (r, closeDB cl.1 cl.2)

/-- The `DatabaseConnection` context manager of `0-databaseconnection.py`:
`db_name` plus the connection set by `__enter__`. -/
structure DatabaseConnection where
  db_name : String
  conn : Option Nat
deriving DecidableEq, Repr

/-- Constructor `DatabaseConnection.__init__(db_name)`: `self.conn = None`. -/
def DatabaseConnection.init (db_name : String) : DatabaseConnection :=
  ⟨db_name, none⟩

/-- Method `__enter__`: `self.conn = sqlite3.connect(self.db_name); return self.conn`. -/
def DatabaseConnection.enter (d : DatabaseConnection) (l : Ledger) :
    Nat × DatabaseConnection × Ledger :=
  let cl := connectDB l
  (cl.1, { d with conn := some cl.1 }, cl.2)

/-- Method `__exit__`: `if self.conn: self.conn.close()` (returns `None`, so an
exception from the body keeps propagating). -/
def DatabaseConnection.exitCM (d : DatabaseConnection) (l : Ledger) : Ledger :=
  match d.conn with
  | some c => closeDB c l
  | none => l

/-- Statement `with DatabaseConnection(db_name) as conn: <body>` — Python `with`
semantics: `__enter__`, run the body, then `__exit__` on both normal and
exceptional exit; the outcome of the body is propagated unchanged because
`__exit__` returns a falsy value. -/
def withDatabaseConnection (db_name : String) (body : Nat → Outcome α) (l : Ledger) :
    Outcome α × Ledger :=
  let d := DatabaseConnection.init db_name
  let cdl := d.enter l
  let r := body cdl.1
  (r, cdl.2.1.exitCM cdl.2.2)

/-- Rows returned by `cursor.fetchall()`. -/
abbrev QueryResult := List (List String)

/-- The module-level `query_cache` dictionary, keyed as the decorator keys
it (insertion order is irrelevant to lookups). -/
abbrev QueryCache := List (Option String × QueryResult)

/-- The key the `cache_query` wrapper extracts:
`kwargs.get("query") or (args[1] if len(args) > 1 else None)`.  Called as in
the source (`fetch_users_with_cache(query=...)` through `with_db_connection`,
which prepends `conn` to `args`), this is the query string itself, except
that a falsy (empty) query string falls through to `None`. -/
def cacheKey (query : String) : Option String :=
  if query = "" then none else some query

/-- Lookup `query in query_cache` / `query_cache[query]`. -/
def cacheLookup (k : Option String) : QueryCache → Option QueryResult
  | [] => none
  | (k', r) :: rest => if k' = k then some r else cacheLookup k rest

/-- One call of `fetch_users_with_cache(query=query)`, i.e. the `cache_query`
wrapper around the body `cursor.execute(query); return cursor.fetchall()`.
`db` is the (deterministic, between-calls unchanged) result of executing a
query against `users.db`.  Returns the result, the updated `query_cache`,
and whether the SQL query was actually executed against the database. -/
def fetch_users_with_cache (db : String → QueryResult) (query : String)
    (cache : QueryCache) : QueryResult × QueryCache × Bool :=
  match cacheLookup (cacheKey query) cache with
  | some r => (r, cache, false)
  | none =>
    let result := db query
    (result, (cacheKey query, result) :: cache, true)

/-- A sequence of `fetch_users_with_cache` calls, tracking the cache. -/
def runCalls (db : String → QueryResult) (queries : List String)
    (cache : QueryCache) : QueryCache :=
  queries.foldl (fun c q => (fetch_users_with_cache db q c).2.1) cache

/-! ### Example rows (concrete inputs for witnesses and counterexamples) -/

def rowAlice : Row := ⟨"1", "Alice", "alice@mail.com", "28"⟩

def rowBob : Row := ⟨"2", "Bob", "bob@mail.com", "34"⟩

def rowCarol : Row := ⟨"3", "Carol", "carol@mail.com", "42"⟩

def rowDan : Row := ⟨"4", "Dan", "dan@mail.com", "20"⟩

def rowEve : Row := ⟨"5", "Eve", "eve@mail.com", "40"⟩

/-- A malformed row: `int("abc")` raises `ValueError`. -/
def rowBad : Row := ⟨"6", "Mallory", "bad@mail.com", "abc"⟩

/-! ### Basic lemmas about the chunked reader -/

theorem streamBatchesFrom_of_nil {db : List α} {b offset : Nat}
    (h : (db.drop offset).take b = []) : streamBatchesFrom db b offset = [] := by
  rw [streamBatchesFrom]
  split
  · rfl
  · next x xs heq => rw [h] at heq; exact absurd heq (by simp)

theorem streamBatchesFrom_of_cons {db : List α} {b offset : Nat} {x : α} {xs : List α}
    (h : (db.drop offset).take b = x :: xs) :
    streamBatchesFrom db b offset = (x :: xs) :: streamBatchesFrom db b (offset + b) := by
  rw [streamBatchesFrom]
  split
  · next heq => rw [h] at heq; exact absurd heq (by simp)
  · next y ys heq =>
    rw [h] at heq
    obtain ⟨rfl, rfl⟩ : y = x ∧ ys = xs := by
      constructor <;> [exact (List.cons.injEq ..).mp heq.symm |>.1;
        exact (List.cons.injEq ..).mp heq.symm |>.2]
    rfl

theorem streamBatchesFrom_flatten (db : List α) (b : Nat) (hb : 0 < b)
    (offset : Nat) : (streamBatchesFrom db b offset).flatten = db.drop offset := by
  induction offset using streamBatchesFrom.induct db b with
  | case1 offset hbatch =>
    rw [streamBatchesFrom_of_nil hbatch]
    have : db.drop offset = [] := by
      rcases List.take_eq_nil_iff.mp hbatch with h0 | h0
      · omega
      · exact h0
    simp [this]
  | case2 offset x xs hbatch ih =>
    rw [streamBatchesFrom_of_cons hbatch, List.flatten_cons, ih, ← hbatch,
      ← List.drop_drop, List.take_append_drop]

theorem streamBatchesFrom_ne_nil (db : List α) (b offset : Nat) :
    ∀ batch ∈ streamBatchesFrom db b offset, batch ≠ [] := by
  induction offset using streamBatchesFrom.induct db b with
  | case1 offset hbatch =>
    rw [streamBatchesFrom_of_nil hbatch]
    intro batch hmem
    exact absurd hmem (by simp)
  | case2 offset x xs hbatch ih =>
    rw [streamBatchesFrom_of_cons hbatch]
    intro batch hmem
    rcases List.mem_cons.mp hmem with rfl | hmem'
    · simp
    · exact ih batch hmem'

theorem streamBatchesFrom_get (db : List α) (b : Nat) :
    ∀ offset i (h : i < (streamBatchesFrom db b offset).length),
      (streamBatchesFrom db b offset).get ⟨i, h⟩ = (db.drop (offset + i * b)).take b := by
  intro offset
  induction offset using streamBatchesFrom.induct db b with
  | case1 offset hbatch =>
    intro i h
    rw [streamBatchesFrom_of_nil hbatch] at h
    exact absurd h (by simp)
  | case2 offset x xs hbatch ih =>
    intro i h
    have hcons := streamBatchesFrom_of_cons hbatch
    match i with
    | 0 =>
      have : (streamBatchesFrom db b offset).get ⟨0, h⟩ = x :: xs := by
        simp [hcons]
      rw [this, Nat.zero_mul, Nat.add_zero, hbatch]
    | Nat.succ i =>
      have h' : i < (streamBatchesFrom db b (offset + b)).length := by
        have := h
        rw [hcons] at this
        simpa using Nat.lt_of_succ_lt_succ this
      have hstep : (streamBatchesFrom db b offset).get ⟨i + 1, h⟩ =
          (streamBatchesFrom db b (offset + b)).get ⟨i, h'⟩ := by
        simp [hcons]
      have harith : offset + b + i * b = offset + (i + 1) * b := by ring
      rw [hstep, ih i h', harith]

theorem streamBatchesFrom_length_mul (db : List α) (b : Nat) (hb : 0 < b) :
    ∀ offset, db.length ≤ offset + (streamBatchesFrom db b offset).length * b := by
  intro offset
  induction offset using streamBatchesFrom.induct db b with
  | case1 offset hbatch =>
    rw [streamBatchesFrom_of_nil hbatch]
    have : db.drop offset = [] := by
      rcases List.take_eq_nil_iff.mp hbatch with h0 | h0
      · omega
      · exact h0
    have := List.drop_eq_nil_iff.mp this
    simpa using this
  | case2 offset x xs hbatch ih =>
    rw [streamBatchesFrom_of_cons hbatch]
    simp only [List.length_cons, Nat.succ_mul]
    linarith [ih]

theorem lazyPaginateFrom_of_nil {db : List α} {s offset : Nat}
    (h : paginate_users db s offset = []) : lazyPaginateFrom db s offset = [] := by
  rw [lazyPaginateFrom]
  split
  · rfl
  · next x xs heq => rw [h] at heq; exact absurd heq (by simp)

theorem lazyPaginateFrom_of_cons {db : List α} {s offset : Nat} {x : α} {xs : List α}
    (h : paginate_users db s offset = x :: xs) :
    lazyPaginateFrom db s offset = (x :: xs) :: lazyPaginateFrom db s (offset + s) := by
  rw [lazyPaginateFrom]
  split
  · next heq => rw [h] at heq; exact absurd heq (by simp)
  · next y ys heq =>
    rw [h] at heq
    obtain ⟨rfl, rfl⟩ : y = x ∧ ys = xs := by
      constructor <;> [exact (List.cons.injEq ..).mp heq.symm |>.1;
        exact (List.cons.injEq ..).mp heq.symm |>.2]
    rfl

/-- The two independent loop bodies, the one of `lazy_paginate` and the
one of `stream_users_in_batches`, have identical offset-advance logic, so the
generators agree window by window from any starting offset. -/
theorem lazyPaginateFrom_eq_streamBatchesFrom (db : List α) (s : Nat) :
    ∀ offset, lazyPaginateFrom db s offset = streamBatchesFrom db s offset := by
  intro offset
  induction offset using lazyPaginateFrom.induct db s with
  | case1 offset hpage =>
    rw [lazyPaginateFrom_of_nil hpage, streamBatchesFrom_of_nil hpage]
  | case2 offset x xs hpage ih =>
    rw [lazyPaginateFrom_of_cons hpage, streamBatchesFrom_of_cons hpage, ih]

/-- C1. For every `batch_size > 0` and every underlying row list,
concatenating all batches yielded by `stream_users_in_batches(batch_size)`
equals the full underlying row list in order — no duplicate and no omitted
rows (no filter applied). -/
theorem c1_stream_batches_concat_eq_all {α : Type} (db : List α) (batch_size : Nat)
    (hb : 0 < batch_size) :
    (stream_users_in_batches db batch_size).flatten = db := by
  unfold stream_users_in_batches
  rw [streamBatchesFrom_flatten db batch_size hb 0, List.drop_zero]

theorem c1_witness :
    0 < 2 ∧ (stream_users_in_batches [rowAlice, rowBob, rowCarol] 2).flatten =
      [rowAlice, rowBob, rowCarol] :=
  ⟨by decide, c1_stream_batches_concat_eq_all [rowAlice, rowBob, rowCarol] 2 (by decide)⟩

/-- C2. For every `size > 0` and the same underlying row list,
`lazy_paginate(size)` and `stream_users_in_batches(size)` produce identical
sequences of pages/batches, hence identical sequences of rows. -/
theorem c2_lazy_paginate_eq_stream_batches {α : Type} (db : List α) (size : Nat)
    (hs : 0 < size) :
    lazy_paginate db size = stream_users_in_batches db size ∧
      (lazy_paginate db size).flatten = (stream_users_in_batches db size).flatten := by
  have h : lazy_paginate db size = stream_users_in_batches db size :=
    lazyPaginateFrom_eq_streamBatchesFrom db size 0
  exact ⟨h, by rw [h]⟩

theorem c2_witness :
    0 < 2 ∧ (lazy_paginate [rowAlice, rowBob, rowCarol] 2 =
      stream_users_in_batches [rowAlice, rowBob, rowCarol] 2 ∧
      (lazy_paginate [rowAlice, rowBob, rowCarol] 2).flatten =
        (stream_users_in_batches [rowAlice, rowBob, rowCarol] 2).flatten) :=
  ⟨by decide, c2_lazy_paginate_eq_stream_batches [rowAlice, rowBob, rowCarol] 2 (by decide)⟩

theorem streamBatchesFrom_full (db : List α) (b : Nat) :
    ∀ offset i (h : i + 1 < (streamBatchesFrom db b offset).length),
      ((streamBatchesFrom db b offset).get ⟨i, Nat.lt_of_succ_lt h⟩).length = b := by
  intro offset
  induction offset using streamBatchesFrom.induct db b with
  | case1 offset hbatch =>
    intro i h
    rw [streamBatchesFrom_of_nil hbatch] at h
    exact absurd h (by simp)
  | case2 offset x xs hbatch ih =>
    intro i h
    have hcons := streamBatchesFrom_of_cons hbatch
    match i with
    | 0 =>
      have hrest : streamBatchesFrom db b (offset + b) ≠ [] := by
        intro h0
        rw [hcons, h0] at h
        simp at h
      have htake : (db.drop (offset + b)).take b ≠ [] := by
        intro h0
        exact hrest (streamBatchesFrom_of_nil h0)
      have hdrop : db.drop (offset + b) ≠ [] := by
        intro h0
        exact htake (by simp [h0])
      have hlen : offset + b < db.length := by
        by_contra hle
        exact hdrop (List.drop_eq_nil_of_le (by omega))
      have hget : (streamBatchesFrom db b offset).get ⟨0, Nat.lt_of_succ_lt h⟩ = x :: xs := by
        simp [hcons]
      rw [hget, ← hbatch, List.length_take, List.length_drop]
      omega
    | Nat.succ i =>
      have h' : i + 1 < (streamBatchesFrom db b (offset + b)).length := by
        rw [hcons] at h
        simpa using Nat.lt_of_succ_lt_succ h
      have hstep : (streamBatchesFrom db b offset).get ⟨i + 1, Nat.lt_of_succ_lt h⟩ =
          (streamBatchesFrom db b (offset + b)).get ⟨i, Nat.lt_of_succ_lt h'⟩ := by
        simp [hcons]
      rw [hstep]
      exact ih i h'

/-! ### Lemmas about the filtering loops -/

theorem filterLoop_foldl_append (p : α → Bool) (l : List α) :
    ∀ init : List α,
      l.foldl (fun filtered_users user =>
        if p user then filtered_users ++ [user] else filtered_users) init =
      init ++ l.filter p := by
  induction l with
  | nil => intro init; simp
  | cons u rest ih =>
    intro init
    rw [List.foldl_cons, ih, List.filter_cons]
    by_cases hp : p u
    · simp [hp]
    · simp [hp]

theorem filterLoop_eq_filter (p : α → Bool) (l : List α) :
    filterLoop p l = l.filter p := by
  unfold filterLoop
  rw [filterLoop_foldl_append]
  simp

theorem filterUsersOver25Go_wf (batch : List Row)
    (hw : ∀ u ∈ batch, (parsePyInt u.age).isSome) :
    ∀ acc, filterUsersOver25Go acc batch =
      .ok (batch.foldl (fun filtered_users user =>
        if over25 user then filtered_users ++ [user] else filtered_users) acc) := by
  induction batch with
  | nil => intro acc; rfl
  | cons user rest ih =>
    intro acc
    obtain ⟨a, ha⟩ := Option.isSome_iff_exists.mp (hw user (by simp))
    have hrest : ∀ u ∈ rest, (parsePyInt u.age).isSome := fun u hu => hw u (by simp [hu])
    have hinit : (if a > 25 then acc ++ [user] else acc) =
        (if over25 user then acc ++ [user] else acc) := by
      unfold over25
      rw [ha]
      by_cases hgt : a > 25
      · simp [hgt]
      · simp [hgt]
    rw [filterUsersOver25Go, ha, List.foldl_cons]
    show filterUsersOver25Go (if a > 25 then acc ++ [user] else acc) rest =
      PyResult.ok (List.foldl
        (fun filtered_users user =>
          if over25 user then filtered_users ++ [user] else filtered_users)
        (if over25 user then acc ++ [user] else acc) rest)
    rw [ih hrest, hinit]

theorem filterUsersOver25_wf (batch : List Row)
    (hw : ∀ u ∈ batch, (parsePyInt u.age).isSome) :
    filterUsersOver25 batch = .ok (filterLoop over25 batch) := by
  unfold filterUsersOver25 filterLoop
  exact filterUsersOver25Go_wf batch hw []

theorem batchProcessingGo_wf (batches : List (List Row))
    (hw : ∀ batch ∈ batches, ∀ u ∈ batch, (parsePyInt u.age).isSome) :
    batchProcessingGo batches = (batches.map (filterLoop over25), none) := by
  induction batches with
  | nil => rfl
  | cons batch rest ih =>
    rw [batchProcessingGo, filterUsersOver25_wf batch (hw batch (by simp))]
    rw [ih (fun bb hbb u hu => hw bb (by simp [hbb]) u hu)]
    simp

/-! ### Concrete evaluations of the (well-founded) stream generators -/

theorem stream_users_in_batches_pair (a c : α) :
    stream_users_in_batches [a, c] 1 = [[a], [c]] := by
  unfold stream_users_in_batches
  rw [streamBatchesFrom_of_cons (show (([a, c] : List α).drop 0).take 1 = [a] from rfl),
    streamBatchesFrom_of_cons (show (([a, c] : List α).drop 1).take 1 = [c] from rfl),
    streamBatchesFrom_of_nil (show (([a, c] : List α).drop 2).take 1 = [] from rfl)]

theorem stream_users_in_batches_triple (a c d : α) :
    stream_users_in_batches [a, c, d] 1 = [[a], [c], [d]] := by
  unfold stream_users_in_batches
  rw [streamBatchesFrom_of_cons (show (([a, c, d] : List α).drop 0).take 1 = [a] from rfl),
    streamBatchesFrom_of_cons (show (([a, c, d] : List α).drop 1).take 1 = [c] from rfl),
    streamBatchesFrom_of_cons (show (([a, c, d] : List α).drop 2).take 1 = [d] from rfl),
    streamBatchesFrom_of_nil (show (([a, c, d] : List α).drop 3).take 1 = [] from rfl)]

/-- C3. Applying a filter predicate inside `batch_processing` never
changes the offset progression: for every `batch_size > 0` and every
predicate `p`, the processed stream is exactly
`stream_users_in_batches(batch_size)` with the filter mapped over each
batch; it fetches the same number of windows; the batch processed at step
`i` is the filter of the raw window at offset `i * batch_size` (the offset
advanced by the raw batch size, not the post-filter count); flattened, the
stream visits exactly the rows of `db` in order, filtered by `p`; and on
rows whose ages parse, the concrete `batch_processing` is precisely the
`over25` instance of this scheme, raising nothing. -/
theorem c3_filter_never_changes_offsets (p : Row → Bool) (db : List Row)
    (batch_size : Nat) (hb : 0 < batch_size) :
    batch_processing_with p db batch_size =
        (stream_users_in_batches db batch_size).map (List.filter p) ∧
      (batch_processing_with p db batch_size).length =
        (stream_users_in_batches db batch_size).length ∧
      (∀ i (h : i < (batch_processing_with p db batch_size).length),
        (batch_processing_with p db batch_size).get ⟨i, h⟩ =
          ((db.drop (i * batch_size)).take batch_size).filter p) ∧
      (batch_processing_with p db batch_size).flatten = db.filter p ∧
      ((∀ u ∈ db, (parsePyInt u.age).isSome) →
        batch_processing db batch_size = (batch_processing_with over25 db batch_size, none)) := by
  have hmap : batch_processing_with p db batch_size =
      (stream_users_in_batches db batch_size).map (List.filter p) :=
    List.map_congr_left (fun batch _ => filterLoop_eq_filter p batch)
  have hflat : (stream_users_in_batches db batch_size).flatten = db := by
    unfold stream_users_in_batches
    rw [streamBatchesFrom_flatten db batch_size hb 0, List.drop_zero]
  refine ⟨hmap, by rw [hmap, List.length_map], ?_, ?_, ?_⟩
  · intro i h
    have hlen : i < (stream_users_in_batches db batch_size).length := by
      simpa [batch_processing_with] using h
    have hw : (stream_users_in_batches db batch_size).get ⟨i, hlen⟩ =
        (db.drop (0 + i * batch_size)).take batch_size :=
      streamBatchesFrom_get db batch_size 0 i hlen
    rw [Nat.zero_add] at hw
    have hget : (batch_processing_with p db batch_size).get ⟨i, h⟩ =
        filterLoop p ((stream_users_in_batches db batch_size).get ⟨i, hlen⟩) :=
      List.get_map (filterLoop p)
    rw [hget, hw, filterLoop_eq_filter]
  · rw [hmap, ← List.filter_flatten, hflat]
  · intro hwf
    unfold batch_processing
    rw [batchProcessingGo_wf]
    · rfl
    · intro batch hbatch u hu
      exact hwf u (by rw [← hflat]; exact List.mem_flatten.mpr ⟨batch, hbatch, hu⟩)

theorem c3_witness :
    0 < 2 ∧ (batch_processing_with over25 [rowAlice, rowDan, rowCarol] 2 =
        (stream_users_in_batches [rowAlice, rowDan, rowCarol] 2).map (List.filter over25) ∧
      (batch_processing_with over25 [rowAlice, rowDan, rowCarol] 2).length =
        (stream_users_in_batches [rowAlice, rowDan, rowCarol] 2).length ∧
      (∀ i (h : i < (batch_processing_with over25 [rowAlice, rowDan, rowCarol] 2).length),
        (batch_processing_with over25 [rowAlice, rowDan, rowCarol] 2).get ⟨i, h⟩ =
          (([rowAlice, rowDan, rowCarol].drop (i * 2)).take 2).filter over25) ∧
      (batch_processing_with over25 [rowAlice, rowDan, rowCarol] 2).flatten =
        [rowAlice, rowDan, rowCarol].filter over25 ∧
      ((∀ u ∈ [rowAlice, rowDan, rowCarol], (parsePyInt u.age).isSome) →
        batch_processing [rowAlice, rowDan, rowCarol] 2 =
          (batch_processing_with over25 [rowAlice, rowDan, rowCarol] 2, none))) :=
  ⟨by decide, c3_filter_never_changes_offsets over25 [rowAlice, rowDan, rowCarol] 2 (by decide)⟩

/-- C4, amended. Every batch yielded by `stream_users_in_batches` and
every page yielded by `lazy_paginate` is non-empty — the empty fetch is
only the internal termination signal and is never yielded.  The guarantee
does **not** extend to the filtered stream of `batch_processing`, which can
yield empty batches mid-stream (see the counterexample). -/
theorem c4_raw_batches_and_pages_nonempty {α : Type} (db : List α) (size : Nat) :
    (∀ batch ∈ stream_users_in_batches db size, batch ≠ []) ∧
      (∀ page ∈ lazy_paginate db size, page ≠ []) := by
  constructor
  · exact streamBatchesFrom_ne_nil db size 0
  · intro page hmem
    rw [lazy_paginate, lazyPaginateFrom_eq_streamBatchesFrom] at hmem
    exact streamBatchesFrom_ne_nil db size 0 page hmem

/-- C4, counterexample. With rows aged 20 and 34 and `batch_size = 1`,
`batch_processing` yields the empty batch `[]` to the consumer followed by
a further non-empty batch: an empty result that is not a terminal
end-of-stream sentinel, refuting the claim for the filtered stream. -/
theorem c4_counterexample :
    (batch_processing [rowDan, rowBob] 1).1 = [[], [rowBob]] ∧
      [] ∈ (batch_processing [rowDan, rowBob] 1).1 ∧
      (batch_processing [rowDan, rowBob] 1).1.getLast? ≠ some [] := by
  unfold batch_processing
  rw [stream_users_in_batches_pair rowDan rowBob]
  decide

/-- C5. `stream_users_in_batches(batch_size)` fetches the window at the
current offset — the batch yielded at step `i` is exactly
`users_db[i*batch_size : i*batch_size + batch_size]`, so the offset
advances by `batch_size` after each fetch; every yielded batch is
non-empty; a short batch is final (every non-final batch is full, so the
stream terminates at the first empty or short window); and after the last
yielded batch the next window is past the end of the table — nothing
further is yielded. -/
theorem c5_stream_batches_protocol {α : Type} (db : List α) (batch_size : Nat)
    (hb : 0 < batch_size) :
    (∀ i (h : i < (stream_users_in_batches db batch_size).length),
        (stream_users_in_batches db batch_size).get ⟨i, h⟩ =
          (db.drop (i * batch_size)).take batch_size) ∧
      (∀ batch ∈ stream_users_in_batches db batch_size, batch ≠ []) ∧
      (∀ i (h : i + 1 < (stream_users_in_batches db batch_size).length),
        ((stream_users_in_batches db batch_size).get ⟨i, Nat.lt_of_succ_lt h⟩).length =
          batch_size) ∧
      db.length ≤ (stream_users_in_batches db batch_size).length * batch_size := by
  refine ⟨?_, streamBatchesFrom_ne_nil db batch_size 0, ?_, ?_⟩
  · intro i h
    have := streamBatchesFrom_get db batch_size 0 i h
    simpa using this
  · intro i h
    exact streamBatchesFrom_full db batch_size 0 i h
  · have := streamBatchesFrom_length_mul db batch_size hb 0
    simpa using this

theorem c5_witness :
    0 < 2 ∧ ((∀ i (h : i < (stream_users_in_batches [rowAlice, rowBob, rowCarol] 2).length),
        (stream_users_in_batches [rowAlice, rowBob, rowCarol] 2).get ⟨i, h⟩ =
          ([rowAlice, rowBob, rowCarol].drop (i * 2)).take 2) ∧
      (∀ batch ∈ stream_users_in_batches [rowAlice, rowBob, rowCarol] 2, batch ≠ []) ∧
      (∀ i (h : i + 1 < (stream_users_in_batches [rowAlice, rowBob, rowCarol] 2).length),
        ((stream_users_in_batches [rowAlice, rowBob, rowCarol] 2).get
          ⟨i, Nat.lt_of_succ_lt h⟩).length = 2) ∧
      ([rowAlice, rowBob, rowCarol] : List Row).length ≤
        (stream_users_in_batches [rowAlice, rowBob, rowCarol] 2).length * 2) :=
  ⟨by decide, c5_stream_batches_protocol [rowAlice, rowBob, rowCarol] 2 (by decide)⟩

/-! ### Lemmas about the age stream and the running average -/

theorem foldl_sum_count (ages : List Int) :
    ∀ (s : Int) (c : Nat),
      ages.foldl (fun (tc : Int × Nat) age => (tc.1 + age, tc.2 + 1)) (s, c) =
        (s + ages.sum, c + ages.length) := by
  induction ages with
  | nil => intro s c; simp
  | cons a rest ih =>
    intro s c
    rw [List.foldl_cons, ih, List.sum_cons, List.length_cons]
    have h1 : s + a + rest.sum = s + (a + rest.sum) := by ring
    have h2 : c + 1 + rest.length = c + (rest.length + 1) := by omega
    rw [h1, h2]

theorem calculate_average_age_triple :
    calculate_average_age [rowAlice, rowBob, rowCarol] = .ok (104 / 3 : ℚ) := by
  have h3 : stream_user_ages [rowAlice, rowBob, rowCarol] = ([28, 34, 42], none) := by
    decide
  unfold calculate_average_age
  rw [h3]
  norm_num [List.foldl_cons, List.foldl_nil]

theorem stream_user_ages_append_bad (pre : List Row) :
    ∀ (bad : Row) (post : List Row), (∀ u ∈ pre, (parsePyInt u.age).isSome) →
      parsePyInt bad.age = none →
      stream_user_ages (pre ++ bad :: post) =
        (pre.filterMap (fun u => parsePyInt u.age),
          some (.invalidIntLiteral bad.age)) := by
  induction pre with
  | nil =>
    intro bad post _ hbad
    simp [stream_user_ages, hbad]
  | cons u rest ih =>
    intro bad post hpre hbad
    obtain ⟨a, ha⟩ := Option.isSome_iff_exists.mp (hpre u (by simp))
    have hrest : ∀ v ∈ rest, (parsePyInt v.age).isSome := fun v hv => hpre v (by simp [hv])
    simp only [List.cons_append, stream_user_ages, ha, List.filterMap_cons, List.append_eq]
    rw [ih bad post hrest hbad]

/-- C6, amended. `calculate_average_age` consumes the single-row age
stream, maintains a running `(sum, count)`, and returns `sum/count` as an
exact rational (Python float division), or `0` when `count == 0`; over the
age multiset `{28, 34, 42}` it returns `104/3 ≈ 34.67` (not `34.0`), and
over an empty row set it returns `0`. -/
theorem c6_average_age (db : List Row) (hok : (stream_user_ages db).2 = none) :
    calculate_average_age db =
        .ok (if (stream_user_ages db).1.length = 0 then 0
          else ((stream_user_ages db).1.sum : ℚ) / ((stream_user_ages db).1.length : ℚ)) ∧
      calculate_average_age [rowAlice, rowBob, rowCarol] = .ok (104 / 3 : ℚ) ∧
      calculate_average_age [] = .ok (0 : ℚ) := by
  refine ⟨?_, calculate_average_age_triple, rfl⟩
  rcases hs : stream_user_ages db with ⟨ages, e⟩
  rw [hs] at hok
  simp only at hok
  subst hok
  unfold calculate_average_age
  rw [hs]
  simp only [foldl_sum_count ages 0 0, Nat.zero_add, zero_add]
  by_cases hl : ages.length = 0
  · simp [hl]
  · simp [hl]

theorem c6_witness :
    (stream_user_ages [rowAlice, rowBob, rowCarol]).2 = none ∧
      (calculate_average_age [rowAlice, rowBob, rowCarol] =
          .ok (if (stream_user_ages [rowAlice, rowBob, rowCarol]).1.length = 0 then 0
            else ((stream_user_ages [rowAlice, rowBob, rowCarol]).1.sum : ℚ) /
              ((stream_user_ages [rowAlice, rowBob, rowCarol]).1.length : ℚ)) ∧
        calculate_average_age [rowAlice, rowBob, rowCarol] = .ok (104 / 3 : ℚ) ∧
        calculate_average_age [] = .ok (0 : ℚ)) :=
  ⟨by decide, c6_average_age [rowAlice, rowBob, rowCarol] (by decide)⟩

/-- C6, counterexample. Over the age multiset `{28, 34, 42}` the code
returns `104/3 ≈ 34.67`, which is not the `34.0` the claim states. -/
theorem c6_counterexample :
    calculate_average_age [rowAlice, rowBob, rowCarol] = .ok (104 / 3 : ℚ) ∧
      (104 / 3 : ℚ) ≠ 34 :=
  ⟨calculate_average_age_triple, by norm_num⟩

/-- C8, amended. A malformed row raises `ValueError`, which nothing in
the source catches: the age stream yields the ages of the well-formed
prefix, then terminates with the exception, and the rows after the
malformed one — well-formed or not — are never yielded; likewise the
filtered batch stream of `batch_processing` ends at the batch containing
the malformed row (concretely: with rows aged 34, "abc", 40 and
`batch_size = 1`, only `[rowBob]` is yielded before the exception).  No
skip-with-warning behaviour exists. -/
theorem c8_malformed_row_aborts_stream (pre post : List Row) (bad : Row)
    (hpre : ∀ u ∈ pre, (parsePyInt u.age).isSome)
    (hbad : parsePyInt bad.age = none) :
    stream_user_ages (pre ++ bad :: post) =
        (pre.filterMap (fun u => parsePyInt u.age),
          some (.invalidIntLiteral bad.age)) ∧
      batch_processing [rowBob, rowBad, rowEve] 1 =
        ([[rowBob]], some (.invalidIntLiteral "abc")) := by
  refine ⟨stream_user_ages_append_bad pre bad post hpre hbad, ?_⟩
  unfold batch_processing
  rw [stream_users_in_batches_triple rowBob rowBad rowEve]
  decide

theorem c8_witness :
    (∀ u ∈ [rowBob], (parsePyInt u.age).isSome) ∧ parsePyInt rowBad.age = none ∧
      (stream_user_ages ([rowBob] ++ rowBad :: [rowEve]) =
          ([rowBob].filterMap (fun u => parsePyInt u.age),
            some (.invalidIntLiteral rowBad.age)) ∧
        batch_processing [rowBob, rowBad, rowEve] 1 =
          ([[rowBob]], some (.invalidIntLiteral "abc"))) :=
  ⟨by decide, by decide, c8_malformed_row_aborts_stream [rowBob] [rowEve] rowBad
    (by decide) (by decide)⟩

/-- C8, counterexample. `rowEve` (age 40) is well-formed and follows
the malformed `rowBad`, yet the age stream never yields 40: it stops with
the `ValueError` instead of skipping the bad row and continuing. -/
theorem c8_counterexample :
    stream_user_ages [rowBob, rowBad, rowEve] =
        ([34], some (.invalidIntLiteral "abc")) ∧
      (40 : Int) ∉ (stream_user_ages [rowBob, rowBad, rowEve]).1 ∧
      (stream_user_ages [rowBob, rowBad, rowEve]).2 ≠ none ∧
      parsePyInt rowEve.age = some 40 := by decide

/-! ### Claims about `0-stream_users.py` -/

/-- C7, amended. A `mysql.connector.Error` never propagates out of
`stream_users`: the `except` clause catches it and prints
`Database error: ...` to stdout, after which the generator simply ends.  On
a connection failure nothing is yielded and no exception is raised, so the
caller-visible outcome (yielded rows, raised error) is identical to that of
a normal run over an empty table — the caller cannot distinguish a
connection failure from normal exhaustion. -/
theorem c7_store_error_not_propagated (run : StoreRun) (m : String)
    (hfail : run.connectError = some m) :
    (∀ r : StoreRun, (stream_users r).raised = none) ∧
      stream_users run = ⟨[], none, ["Database error: " ++ m]⟩ ∧
      (stream_users run).yielded = (stream_users ⟨none, true, [], none⟩).yielded ∧
      (stream_users run).raised = (stream_users ⟨none, true, [], none⟩).raised := by
  have hrun : stream_users run = ⟨[], none, ["Database error: " ++ m]⟩ := by
    unfold stream_users
    rw [hfail]
  refine ⟨?_, hrun, by rw [hrun]; rfl, by rw [hrun]; rfl⟩
  intro r
  rcases r with ⟨ce, ic, rs, me⟩
  unfold stream_users
  cases ce with
  | some m' => rfl
  | none =>
    cases ic with
    | true => cases me with
      | some m' => rfl
      | none => rfl
    | false => rfl

theorem c7_witness :
    (⟨some "Connection refused", false, [], none⟩ : StoreRun).connectError =
        some "Connection refused" ∧
      ((∀ r : StoreRun, (stream_users r).raised = none) ∧
        stream_users ⟨some "Connection refused", false, [], none⟩ =
          ⟨[], none, ["Database error: " ++ "Connection refused"]⟩ ∧
        (stream_users ⟨some "Connection refused", false, [], none⟩).yielded =
          (stream_users ⟨none, true, [], none⟩).yielded ∧
        (stream_users ⟨some "Connection refused", false, [], none⟩).raised =
          (stream_users ⟨none, true, [], none⟩).raised) :=
  ⟨rfl, c7_store_error_not_propagated ⟨some "Connection refused", false, [], none⟩
    "Connection refused" rfl⟩

/-- C7, counterexample. On a connection failure `stream_users` raises
nothing to the caller (`raised = none`, not a `StoreUnavailable`), and its
caller-visible outcome equals that of a normal run over an empty table:
the failure is *not* propagated and *is* silently convertible to normal
end-of-stream. -/
theorem c7_counterexample :
    (stream_users ⟨some "Connection refused", false, [], none⟩).raised = none ∧
      stream_users ⟨some "Connection refused", false, [], none⟩ =
        ⟨[], none, ["Database error: Connection refused"]⟩ ∧
      (stream_users ⟨some "Connection refused", false, [], none⟩).yielded =
        (stream_users ⟨none, true, [], none⟩).yielded ∧
      (stream_users ⟨some "Connection refused", false, [], none⟩).raised =
        (stream_users ⟨none, true, [], none⟩).raised := by decide

/-! ### Claims about scoped connection handling -/

/-- C9. On every exit path — the body returning normally or raising —
both the `with_db_connection` decorator (`try`/`finally`) and the
`DatabaseConnection` context manager (`__enter__`/`__exit__`) close the
connection they opened before control returns to the caller: the set of
open handles is restored exactly, the freshly opened handle is no longer
open, and the outcome of the body (value or exception) is passed through
unchanged. -/
theorem c9_connection_released_on_every_exit {α : Type} (body : Nat → Outcome α)
    (l : Ledger) (db_name : String) (hfresh : l.nextId ∉ l.openIds) :
    (with_db_connection body l).2.openIds = l.openIds ∧
      (with_db_connection body l).1 = body l.nextId ∧
      l.nextId ∉ (with_db_connection body l).2.openIds ∧
      (withDatabaseConnection db_name body l).2.openIds = l.openIds ∧
      (withDatabaseConnection db_name body l).1 = body l.nextId ∧
      l.nextId ∉ (withDatabaseConnection db_name body l).2.openIds := by
  have h1 : (with_db_connection body l).2.openIds = l.openIds := by
    unfold with_db_connection connectDB closeDB
    simp
  have h2 : (withDatabaseConnection db_name body l).2.openIds = l.openIds := by
    unfold withDatabaseConnection DatabaseConnection.init DatabaseConnection.enter
      DatabaseConnection.exitCM connectDB closeDB
    simp
  refine ⟨h1, rfl, ?_, h2, rfl, ?_⟩
  · rw [h1]; exact hfresh
  · rw [h2]; exact hfresh

theorem c9_witness :
    (⟨0, []⟩ : Ledger).nextId ∉ (⟨0, []⟩ : Ledger).openIds ∧
      ((with_db_connection (fun _ => (Outcome.exc "boom" : Outcome Nat)) (⟨0, []⟩ : Ledger)).2.openIds =
          (⟨0, []⟩ : Ledger).openIds ∧
        (with_db_connection (fun _ => (Outcome.exc "boom" : Outcome Nat)) (⟨0, []⟩ : Ledger)).1 =
          (fun _ => (Outcome.exc "boom" : Outcome Nat)) (⟨0, []⟩ : Ledger).nextId ∧
        (⟨0, []⟩ : Ledger).nextId ∉
          (with_db_connection (fun _ => (Outcome.exc "boom" : Outcome Nat)) (⟨0, []⟩ : Ledger)).2.openIds ∧
        (withDatabaseConnection "users.db" (fun _ => (Outcome.exc "boom" : Outcome Nat))
            (⟨0, []⟩ : Ledger)).2.openIds = (⟨0, []⟩ : Ledger).openIds ∧
        (withDatabaseConnection "users.db" (fun _ => (Outcome.exc "boom" : Outcome Nat))
            (⟨0, []⟩ : Ledger)).1 =
          (fun _ => (Outcome.exc "boom" : Outcome Nat)) (⟨0, []⟩ : Ledger).nextId ∧
        (⟨0, []⟩ : Ledger).nextId ∉
          (withDatabaseConnection "users.db" (fun _ => (Outcome.exc "boom" : Outcome Nat))
            (⟨0, []⟩ : Ledger)).2.openIds) :=
  ⟨by decide, c9_connection_released_on_every_exit (fun _ => (Outcome.exc "boom" : Outcome Nat))
    ⟨0, []⟩ "users.db" (by decide)⟩

/-! ### Claims about the query cache -/

theorem cache_fetch_stores (db : String → QueryResult) (q : String) (c : QueryCache) :
    cacheLookup (cacheKey q) (fetch_users_with_cache db q c).2.1 =
      some (fetch_users_with_cache db q c).1 := by
  unfold fetch_users_with_cache
  cases h : cacheLookup (cacheKey q) c with
  | some r => simp [h]
  | none =>
    simp only [h]
    unfold cacheLookup
    simp

theorem cache_fetch_preserves (db : String → QueryResult) (qq q : String)
    (c : QueryCache) (r : QueryResult) (h : cacheLookup (cacheKey q) c = some r) :
    cacheLookup (cacheKey q) (fetch_users_with_cache db qq c).2.1 = some r := by
  unfold fetch_users_with_cache
  cases hl : cacheLookup (cacheKey qq) c with
  | some rr => simpa [hl] using h
  | none =>
    simp only [hl]
    unfold cacheLookup
    by_cases hk : cacheKey qq = cacheKey q
    · rw [hk] at hl
      rw [hl] at h
      exact absurd h (by simp)
    · simp [hk, h]

theorem cache_runCalls_preserves (db : String → QueryResult) (later : List String)
    (q : String) (r : QueryResult) :
    ∀ c, cacheLookup (cacheKey q) c = some r →
      cacheLookup (cacheKey q) (runCalls db later c) = some r := by
  induction later with
  | nil => intro c h; exact h
  | cons qq rest ih =>
    intro c h
    show cacheLookup (cacheKey q)
      (runCalls db rest (fetch_users_with_cache db qq c).2.1) = some r
    exact ih _ (cache_fetch_preserves db qq q c r h)

theorem cache_fetch_hit (db : String → QueryResult) (q : String) (c : QueryCache)
    (r : QueryResult) (h : cacheLookup (cacheKey q) c = some r) :
    fetch_users_with_cache db q c = (r, c, false) := by
  unfold fetch_users_with_cache
  rw [h]

/-- C10. After one call of `fetch_users_with_cache` with query `q`,
every later call with the same `q` — regardless of other queries cached in
between — returns exactly the result of that first call, does not execute
the SQL query against the database, and leaves `query_cache` unchanged. -/
theorem c10_cache_repeat_returns_stored (db : String → QueryResult) (query : String)
    (cache0 : QueryCache) (later : List String) :
    (fetch_users_with_cache db query
        (runCalls db later (fetch_users_with_cache db query cache0).2.1)).1 =
        (fetch_users_with_cache db query cache0).1 ∧
      (fetch_users_with_cache db query
        (runCalls db later (fetch_users_with_cache db query cache0).2.1)).2.2 = false ∧
      (fetch_users_with_cache db query
        (runCalls db later (fetch_users_with_cache db query cache0).2.1)).2.1 =
        runCalls db later (fetch_users_with_cache db query cache0).2.1 := by
  have h1 := cache_fetch_stores db query cache0
  have h2 := cache_runCalls_preserves db later query
    (fetch_users_with_cache db query cache0).1 _ h1
  have h3 := cache_fetch_hit db query
    (runCalls db later (fetch_users_with_cache db query cache0).2.1)
    (fetch_users_with_cache db query cache0).1 h2
  exact ⟨by rw [h3], by rw [h3], by rw [h3]⟩
